import Mathlib

/-!
Shallow embedding of the echochamber/rust_chat chat server core
(src/src/chat_server/{app,server,connection,command,user,room}.rs) and
verification of its natural-language specification.

Rust HashMaps are embedded as association lists with unique keys (every
insertion in the source is guarded by an absence check, so keyed entries are
never duplicated); mio Tokens are Nat; Strings stay Strings; byte buffers are
List Nat; the kernel side of each non-blocking socket call is passed in
explicitly as a result value.
-/

set_option autoImplicit false

namespace RustChat

abbrev Token := Nat
abbrev Username := String
abbrev Roomname := String

/-! ### Association-list embedding of std::collections::HashMap -/

/-- HashMap::get: first value stored under the key, if any. -/
def hmGet {α β : Type} [DecidableEq α] (k : α) : List (α × β) → Option β
  | [] => none
  | p :: l => if p.1 = k then some p.2 else hmGet k l

/-- HashMap::get_mut followed by a mutation of the stored value: rewrite the
entry under the key in place. When the key is absent this is a no-op; the
source unwraps instead (a panic), and every call site below is only reached
with the key present. -/
def hmModify {α β : Type} [DecidableEq α] (k : α) (f : β → β) (l : List (α × β)) :
    List (α × β) :=
  l.map fun p => if p.1 = k then (k, f p.2) else p

/-- HashMap::remove: drop every entry stored under the key. -/
def hmRemove {α β : Type} [DecidableEq α] (k : α) (l : List (α × β)) : List (α × β) :=
  l.filter fun p => p.1 ≠ k

/-! ### Data model (user.rs, room.rs, app.rs)

room.rs declares the member collection as a HashSet, but app.rs — the file
that actually manipulates it — uses Vec operations throughout (members.push,
members.clone returned as a Vec of Tokens), and the two files do not compile
together.  The embedding follows the operations in app.rs: members is a list
that may hold duplicates. -/

structure ChatUser where
  id : Token
  user_name : Username
  location : Roomname
deriving DecidableEq

structure ChatRoom where
  name : Roomname
  members : List Token
deriving DecidableEq

def ChatRoom.new (name : Roomname) : ChatRoom :=
  { name := name, members := [] }

structure ChatApp where
  users : List (Token × ChatUser)
  rooms : List (Roomname × ChatRoom)
  user_name_lookup : List (Username × Token)
deriving DecidableEq

/-- ChatApp::new (app.rs 22-32): empty tables plus the initial default room. -/
def ChatApp.new : ChatApp :=
  { users := [],
    rooms := [("default", ChatRoom.new "default")],
    user_name_lookup := [] }

/-- ChatApp::get_message_recipients (app.rs 35-38): the member list of the
sender's current room, cloned as-is.  The two unwraps in the source panic when
the sender is unregistered or its room is missing; both are modelled as none. -/
def ChatApp.get_message_recipients (app : ChatApp) (sender : Token) :
    Option (List Token) :=
  match hmGet sender app.users with
  | none => none
  | some user =>
    match hmGet user.location app.rooms with
    | none => none
    | some room => some room.members

/-- ChatApp::get_room_list (app.rs 40-42). -/
def ChatApp.get_room_list (app : ChatApp) : List Roomname :=
  app.rooms.map Prod.fst

/-- ChatApp::get_username (app.rs 44-53). -/
def ChatApp.get_username (app : ChatApp) (token : Token) : Option Username :=
  match hmGet token app.users with
  | some user => some user.user_name
  | none => none

/-- ChatApp::move_rooms (app.rs 55-67).  Creates the destination room when
absent, rewrites the user's location, and pushes the token onto the
destination's member list.  The source reads the previous location into a
local that it never uses again: the token is not removed from the previous
room's members.  The users.get_mut unwrap on an unregistered token is a panic,
modelled as none. -/
def ChatApp.move_rooms (app : ChatApp) (token : Token) (dest : Roomname) :
    Option ChatApp :=
  let app1 : ChatApp :=
    if hmGet dest app.rooms = none then
      { app with rooms := (dest, ChatRoom.new dest) :: app.rooms }
    else app
  match hmGet token app1.users with
  | none => none
  | some user =>
    let _prev_location := user.location
    some { app1 with
      users := hmModify token (fun u => { u with location := dest }) app1.users,
      rooms := hmModify dest (fun r => { r with members := r.members ++ [token] })
        app1.rooms }

/-- ChatApp::register_user (app.rs 70-92).  Fails (with the source's exact
error strings) when the token or the name is already registered; both checks
precede every mutation, so the error paths return before the tables change.
On success the token is pushed onto the default room's members, the user is
inserted, and the name index is updated. -/
def ChatApp.register_user (app : ChatApp) (token : Token) (user_name : Username) :
    Except String ChatApp :=
  if (hmGet token app.users).isSome then
    .error "A user is already registered for that token"
  else if (hmGet user_name app.user_name_lookup).isSome then
    .error "A user with that name is already registered"
  else
    let user : ChatUser := { id := token, user_name := user_name, location := "default" }
    .ok { app with
      rooms := hmModify "default" (fun r => { r with members := r.members ++ [token] })
        app.rooms,
      users := (token, user) :: app.users,
      user_name_lookup := (user_name, token) :: app.user_name_lookup }

/-- Modelled from the spec: ChatApp::remove_user is invoked from
ChatServer::reset_connection (server.rs line 203) but its definition is
nowhere under src/.  Spec section 4.4: "remove_user(token): if token is
registered, remove it from its room's members, drop the name from the name
index, and remove the User. No-op otherwise. Does not delete empty rooms." -/
def ChatApp.remove_user (app : ChatApp) (token : Token) : ChatApp :=
  match hmGet token app.users with
  | none => app
  | some user =>
    { users := hmRemove token app.users,
      rooms := hmModify user.location
        (fun r => { r with members := r.members.filter (fun x => x != token) })
        app.rooms,
      user_name_lookup := hmRemove user.user_name app.user_name_lookup }

/-! ### Connection (connection.rs)

The socket is the outside world: each call to ChatConnection.read or
ChatConnection.write takes the result the kernel produced for the one
try_read_buf / try_write_buf the source performs, and returns the updated
connection together with the value the source returns. -/

inductive ChatConnectionState
  | Open
  | Closed
deriving DecidableEq

/-- Result of the single mio try_read_buf call inside ChatConnection::read:
read bs is Ok(Some(n)) with bs the n bytes appended to the buffer (bs = [] is
Ok(Some(0)), the peer half-close); wouldBlock is Ok(None); ioErr is Err(e). -/
inductive TryReadResult
  | read (bs : List Nat)
  | wouldBlock
  | ioErr
deriving DecidableEq

/-- Return value of ChatConnection::read, an io::Result of Option String:
message carries the UTF-8 bytes of the returned line. -/
inductive ReadResult
  | message (bytes : List Nat)
  | needMore
  | errDisconnected
  | errInvalidUtf8
  | errIo
deriving DecidableEq

/-- Result of the single mio try_write_buf call inside ChatConnection::write. -/
inductive TryWriteResult
  | wrote (n : Nat)
  | wouldBlock
  | ioErr (e : String)
deriving DecidableEq

structure ChatConnection where
  token : Token
  interest_readable : Bool
  interest_writable : Bool
  read_buf : List Nat
  send_queue : List (List Nat)
  state : ChatConnectionState
  failed_read_attempts : Nat
  failed_write_attempts : Nat
deriving DecidableEq

/-- ChatConnection::new (connection.rs 54-66). -/
def ChatConnection.new (token : Token) : ChatConnection :=
  { token := token,
    interest_readable := true,
    interest_writable := true,
    read_buf := [],
    send_queue := [],
    state := .Open,
    failed_read_attempts := 0,
    failed_write_attempts := 0 }

/-- ChatConnection::is_ready_to_write (connection.rs 231-240): position of the
first newline byte in the read buffer, plus one. -/
def ChatConnection.is_ready_to_write (c : ChatConnection) : Option Nat :=
  (c.read_buf.findIdx? (fun b => b = 10)).map (fun pos => pos + 1)

/-- Byte-level embedding of Rust's String::from_utf8 validity check: true iff
the byte list is well-formed UTF-8 (no overlong forms, no surrogates, no code
points beyond U+10FFFF). -/
def validUtf8 : List Nat → Bool
  | [] => true
  | b :: rest =>
    if b ≤ 0x7F then validUtf8 rest
    else if 0xC2 ≤ b ∧ b ≤ 0xDF then
      match rest with
      | c1 :: rest' => decide (0x80 ≤ c1 ∧ c1 ≤ 0xBF) && validUtf8 rest'
      | [] => false
    else if b = 0xE0 then
      match rest with
      | c1 :: c2 :: rest' =>
        decide (0xA0 ≤ c1 ∧ c1 ≤ 0xBF) && decide (0x80 ≤ c2 ∧ c2 ≤ 0xBF) &&
          validUtf8 rest'
      | _ => false
    else if (0xE1 ≤ b ∧ b ≤ 0xEC) ∨ b = 0xEE ∨ b = 0xEF then
      match rest with
      | c1 :: c2 :: rest' =>
        decide (0x80 ≤ c1 ∧ c1 ≤ 0xBF) && decide (0x80 ≤ c2 ∧ c2 ≤ 0xBF) &&
          validUtf8 rest'
      | _ => false
    else if b = 0xED then
      match rest with
      | c1 :: c2 :: rest' =>
        decide (0x80 ≤ c1 ∧ c1 ≤ 0x9F) && decide (0x80 ≤ c2 ∧ c2 ≤ 0xBF) &&
          validUtf8 rest'
      | _ => false
    else if b = 0xF0 then
      match rest with
      | c1 :: c2 :: c3 :: rest' =>
        decide (0x90 ≤ c1 ∧ c1 ≤ 0xBF) && decide (0x80 ≤ c2 ∧ c2 ≤ 0xBF) &&
          decide (0x80 ≤ c3 ∧ c3 ≤ 0xBF) && validUtf8 rest'
      | _ => false
    else if 0xF1 ≤ b ∧ b ≤ 0xF3 then
      match rest with
      | c1 :: c2 :: c3 :: rest' =>
        decide (0x80 ≤ c1 ∧ c1 ≤ 0xBF) && decide (0x80 ≤ c2 ∧ c2 ≤ 0xBF) &&
          decide (0x80 ≤ c3 ∧ c3 ≤ 0xBF) && validUtf8 rest'
      | _ => false
    else if b = 0xF4 then
      match rest with
      | c1 :: c2 :: c3 :: rest' =>
        decide (0x80 ≤ c1 ∧ c1 ≤ 0x8F) && decide (0x80 ≤ c2 ∧ c2 ≤ 0xBF) &&
          decide (0x80 ≤ c3 ∧ c3 ≤ 0xBF) && validUtf8 rest'
      | _ => false
    else false

/-- ChatConnection::read (connection.rs 76-135).  On Ok(Some(0)) the
connection closes with a Disconnected error.  On Ok(Some(n)) the bytes land in
the read buffer and, when the buffer holds a newline, the source does
mem::replace(&mut self.read_buf, Vec::new()) and then truncates self.read_buf
— the fresh empty vector, a no-op kept verbatim below — so the value returned
is the whole replaced buffer (bytes after the first newline included) and the
retained buffer is empty.  On Err the failed-read counter increments and the
connection closes once the counter exceeds 3. -/
def ChatConnection.read (c : ChatConnection) (k : TryReadResult) :
    ChatConnection × ReadResult :=
  match k with
  | .read [] => ({ c with state := .Closed }, .errDisconnected)
  | .read bs =>
    let c1 := { c with failed_read_attempts := 0, read_buf := c.read_buf ++ bs }
    match c1.is_ready_to_write with
    | some limit =>
      let read_buf := c1.read_buf
      let c2 := { c1 with read_buf := ([] : List Nat).take limit }
      if validUtf8 read_buf then (c2, .message read_buf)
      else (c2, .errInvalidUtf8)
    | none => (c1, .needMore)
  | .wouldBlock => ({ c with failed_read_attempts := 0 }, .needMore)
  | .ioErr =>
    let f := c.failed_read_attempts + 1
    ({ c with
        failed_read_attempts := f,
        state := if f > 3 then .Closed else c.state }, .errIo)

/-- ChatConnection::write (connection.rs 141-186).  Pops the head buffer and
attempts one write: on would-block the counter increments and the buffer goes
back to the head unless the counter now exceeds 3, in which case the
connection closes (and the buffer is dropped); on success the counter resets;
on an I/O error the buffer is dropped, the counter increments and the
connection closes once it exceeds 3.  An empty queue yields an error without
touching queue, state or counter.  Afterwards, if the queue is empty the
writable-interest bit is cleared. -/
def ChatConnection.write (c : ChatConnection) (k : TryWriteResult) :
    ChatConnection × Except String Unit :=
  let res : ChatConnection × Except String Unit :=
    match c.send_queue with
    | [] => (c, .error "Could not pop send queue")
    | buf :: rest =>
      let c1 := { c with send_queue := rest }
      match k with
      | .wouldBlock =>
        let c2 := { c1 with failed_write_attempts := c1.failed_write_attempts + 1 }
        if c2.failed_write_attempts > 3 then
          ({ c2 with state := .Closed }, .error "Exceeded failed write attempts limit.")
        else
          ({ c2 with send_queue := buf :: c2.send_queue }, .ok ())
      | .wrote _ => ({ c1 with failed_write_attempts := 0 }, .ok ())
      | .ioErr e =>
        let c2 := { c1 with failed_write_attempts := c1.failed_write_attempts + 1 }
        (if c2.failed_write_attempts > 3 then { c2 with state := .Closed } else c2,
          .error e)
  (if res.1.send_queue.isEmpty then { res.1 with interest_writable := false }
   else res.1, res.2)

/-- ChatConnection::is_closed (connection.rs 188-190). -/
def ChatConnection.is_closed (c : ChatConnection) : Bool :=
  c.state = .Closed

/-- ChatConnection::send_message (connection.rs 194-197). -/
def ChatConnection.send_message (c : ChatConnection) (message : List Nat) :
    ChatConnection :=
  { c with send_queue := c.send_queue ++ [message], interest_writable := true }

/-- ChatConnection::quit (connection.rs 222-224). -/
def ChatConnection.quit (c : ChatConnection) : ChatConnection :=
  { c with state := .Closed }

/-! ### Server-side message handling (server.rs) -/

namespace ChatServer

/-- First element of Rust's str::split(char::is_whitespace) iterator, as taken
by nth(0) in server.rs line 110.  Rust's split always yields at least one
element — splitting the empty string yields one empty piece — so the result is
always some: the text before the first whitespace character (empty when the
line starts with whitespace or is empty).  Lean's Char.isWhitespace covers the
ASCII whitespace that can occur in a framed line; the difference from Rust's
Unicode White_Space is irrelevant to the claims checked here. -/
def splitWhitespaceNth0 (s : String) : Option String :=
  some (String.mk (s.data.takeWhile (fun ch => !ch.isWhitespace)))

/-- ChatServer::handle_message_from_unauthorized_user (server.rs 107-127):
returns the updated app state and the reply line enqueued on the sender, if
any.  The None branch of the source match (the do-nothing case for a bare
newline or whitespace-only line) is kept verbatim even though
splitWhitespaceNth0 never returns none. -/
def handle_message_from_unauthorized_user (app : ChatApp) (token : Token)
    (message : String) : ChatApp × Option String :=
  match splitWhitespaceNth0 message with
  | some name =>
    match app.register_user token name with
    | .ok app' => (app', some "Server: you have been successfully authorized\n")
    | .error _ => (app, some "Server: That username is taken, please try another\n")
  | none => (app, none)

/-- The fan-out loop of ChatServer::handle_message_from_authorized_user
(server.rs 144-159): enqueue one shared payload on the connection of every
recipient token in turn. -/
def fan_out (connections : List (Token × ChatConnection)) (recipients : List Token)
    (payload : List Nat) : List (Token × ChatConnection) :=
  recipients.foldl
    (fun conns t => hmModify t (fun c => c.send_message payload) conns)
    connections

end ChatServer

/-! ### Concrete fixtures used by counterexamples and witnesses -/

/-- The app after the connection with token 2 successfully claims the name
alice (the state reached in spec scenario S1 after the first exchange). -/
def appAlice : ChatApp :=
  match ChatApp.new.register_user 2 "alice" with
  | .ok a => a
  | .error _ => ChatApp.new

/-- appAlice after the /join-driven move of token 2 into the room red. -/
def appAliceRed : ChatApp :=
  match appAlice.move_rooms 2 "red" with
  | some a => a
  | none => appAlice

/-- appAlice after moving token 2 into the room it is already in. -/
def appAliceMovedDefault : ChatApp :=
  match appAlice.move_rooms 2 "default" with
  | some a => a
  | none => appAlice

/-- A freshly accepted connection with token 2. -/
def conn2 : ChatConnection := ChatConnection.new 2

/-- conn2 with a single one-byte payload queued for writing. -/
def conn2Queued : ChatConnection :=
  { conn2 with send_queue := [[104]] }

/-- The server connection table holding only the connection of token 2. -/
def connsAlice : List (Token × ChatConnection) := [(2, conn2)]

/-! ### Reachable states and the ChatApp invariant -/

/-- States of the ChatApp reachable from startup through the mutating
operations (the get-only operations do not change the state; failing
register_user calls return before mutating, so the caller keeps the old
state; move_rooms is only invoked under its registered-token precondition). -/
inductive Reachable : ChatApp → Prop
  | init : Reachable ChatApp.new
  | register_ok {app app' : ChatApp} {t : Token} {n : Username} :
      Reachable app → app.register_user t n = .ok app' → Reachable app'
  | move {app app' : ChatApp} {t : Token} {d : Roomname} :
      Reachable app → app.move_rooms t d = some app' → Reachable app'
  | remove {app : ChatApp} (t : Token) :
      Reachable app → Reachable (app.remove_user t)

/-- The ChatApp data-structure invariant: keyed tables have no duplicate
keys, the default room exists, every user's name indexes back to its token,
every user's token is a member of its current room, and every name-index
entry points at a user carrying that name. -/
structure AppInv (app : ChatApp) : Prop where
  users_nodup : (app.users.map Prod.fst).Nodup
  rooms_nodup : (app.rooms.map Prod.fst).Nodup
  lookup_nodup : (app.user_name_lookup.map Prod.fst).Nodup
  default_room : ∃ r, hmGet "default" app.rooms = some r
  user_name_idx : ∀ t u, hmGet t app.users = some u →
    hmGet u.user_name app.user_name_lookup = some t
  user_in_room : ∀ t u, hmGet t app.users = some u →
    ∃ room, hmGet u.location app.rooms = some room ∧ t ∈ room.members
  idx_user : ∀ n t, hmGet n app.user_name_lookup = some t →
    ∃ u, hmGet t app.users = some u ∧ u.user_name = n

/-! ### Properties of the HashMap embedding -/

@[simp] theorem hmGet_nil {α β : Type} [DecidableEq α] (k : α) :
    hmGet (β := β) k [] = none := rfl

theorem hmGet_cons {α β : Type} [DecidableEq α] (k k' : α) (v : β) (l : List (α × β)) :
    hmGet k ((k', v) :: l) = if k' = k then some v else hmGet k l := rfl

theorem hmGet_hmModify {α β : Type} [DecidableEq α] (k k' : α) (f : β → β)
    (l : List (α × β)) :
    hmGet k' (hmModify k f l) = if k = k' then (hmGet k' l).map f else hmGet k' l := by
  induction l with
  | nil => simp [hmModify]
  | cons p l ih =>
    obtain ⟨a, b⟩ := p
    by_cases hak : a = k <;> by_cases hkk : k = k' <;> by_cases hak' : a = k' <;>
      simp_all [hmModify, hmGet_cons, hmGet]

theorem hmGet_hmRemove {α β : Type} [DecidableEq α] (k k' : α) (l : List (α × β)) :
    hmGet k' (hmRemove k l) = if k' = k then none else hmGet k' l := by
  induction l with
  | nil => simp [hmRemove]
  | cons p l ih =>
    obtain ⟨a, b⟩ := p
    by_cases hak : a = k <;> by_cases hak' : a = k' <;>
      simp_all [hmRemove, hmGet_cons, hmGet, List.filter]

theorem hmModify_keys {α β : Type} [DecidableEq α] (k : α) (f : β → β)
    (l : List (α × β)) :
    (hmModify k f l).map Prod.fst = l.map Prod.fst := by
  induction l with
  | nil => rfl
  | cons p l ih =>
    by_cases hak : p.1 = k <;> simp_all [hmModify]

theorem hmRemove_keys_sublist {α β : Type} [DecidableEq α] (k : α) (l : List (α × β)) :
    ((hmRemove k l).map Prod.fst).Sublist (l.map Prod.fst) :=
  (List.filter_sublist l).map Prod.fst

theorem hmGet_eq_none_iff {α β : Type} [DecidableEq α] (k : α) (l : List (α × β)) :
    hmGet k l = none ↔ k ∉ l.map Prod.fst := by
  induction l with
  | nil => simp
  | cons p l ih =>
    obtain ⟨a, b⟩ := p
    by_cases hak : a = k
    · subst hak
      simp [hmGet_cons]
    · have hka : ¬ k = a := fun h => hak h.symm
      simp [hmGet_cons, hak, hka, ih]

theorem appInv_new : AppInv ChatApp.new := by
  refine ⟨by simp [ChatApp.new], by simp [ChatApp.new], by simp [ChatApp.new],
    ⟨ChatRoom.new "default", rfl⟩, ?_, ?_, ?_⟩ <;>
    · intro a b h
      simp [ChatApp.new] at h

theorem appInv_register {app app' : ChatApp} {t : Token} {n : Username}
    (inv : AppInv app) (h : app.register_user t n = .ok app') : AppInv app' := by
  cases hu : hmGet t app.users with
  | some u => simp [ChatApp.register_user, hu] at h
  | none =>
  cases hn : hmGet n app.user_name_lookup with
  | some t0 => simp [ChatApp.register_user, hu, hn] at h
  | none =>
  simp only [ChatApp.register_user, hu, hn, Option.isSome_none, Bool.false_eq_true,
    if_false, Except.ok.injEq] at h
  subst h
  refine ⟨?_, ?_, ?_, ?_, ?_, ?_, ?_⟩
  · exact List.nodup_cons.mpr ⟨(hmGet_eq_none_iff t app.users).mp hu, inv.users_nodup⟩
  · rw [hmModify_keys]; exact inv.rooms_nodup
  · exact List.nodup_cons.mpr
      ⟨(hmGet_eq_none_iff n app.user_name_lookup).mp hn, inv.lookup_nodup⟩
  · obtain ⟨r, hr⟩ := inv.default_room
    exact ⟨{ r with members := r.members ++ [t] }, by rw [hmGet_hmModify]; simp [hr]⟩
  · intro t' u' h'
    rw [hmGet_cons] at h'
    by_cases htt : t = t'
    · subst htt
      rw [if_pos rfl] at h'
      injection h' with h'
      subst h'
      simp [hmGet_cons]
    · rw [if_neg htt] at h'
      have hidx := inv.user_name_idx t' u' h'
      rw [hmGet_cons, if_neg]
      · exact hidx
      · intro hne
        rw [← hne] at hidx
        rw [hn] at hidx
        cases hidx
  · intro t' u' h'
    rw [hmGet_cons] at h'
    by_cases htt : t = t'
    · subst htt
      rw [if_pos rfl] at h'
      injection h' with h'
      subst h'
      obtain ⟨r, hr⟩ := inv.default_room
      refine ⟨{ r with members := r.members ++ [t] }, ?_, ?_⟩
      · show hmGet "default" _ = _
        rw [hmGet_hmModify]; simp [hr]
      · simp
    · rw [if_neg htt] at h'
      obtain ⟨room, hroom, hmem⟩ := inv.user_in_room t' u' h'
      rw [hmGet_hmModify]
      by_cases hl : "default" = u'.location
      · rw [if_pos hl]
        exact ⟨{ room with members := room.members ++ [t] }, by rw [hroom]; rfl,
          List.mem_append_left _ hmem⟩
      · rw [if_neg hl]
        exact ⟨room, hroom, hmem⟩
  · intro n' t0 h'
    rw [hmGet_cons] at h'
    by_cases hnn : n = n'
    · subst hnn
      rw [if_pos rfl] at h'
      injection h' with h'
      subst h'
      exact ⟨⟨t, n, "default"⟩, by rw [hmGet_cons, if_pos rfl], rfl⟩
    · rw [if_neg hnn] at h'
      obtain ⟨u', hu', hname⟩ := inv.idx_user n' t0 h'
      refine ⟨u', ?_, hname⟩
      rw [hmGet_cons, if_neg]
      · exact hu'
      · intro hne
        rw [hne] at hu
        rw [hu] at hu'
        cases hu'

theorem appInv_create_room {app : ChatApp} {d : Roomname} (inv : AppInv app)
    (hd : hmGet d app.rooms = none) :
    AppInv { app with rooms := (d, ChatRoom.new d) :: app.rooms } := by
  refine ⟨inv.users_nodup, ?_, inv.lookup_nodup, ?_, inv.user_name_idx, ?_,
    inv.idx_user⟩
  · exact List.nodup_cons.mpr ⟨(hmGet_eq_none_iff d app.rooms).mp hd, inv.rooms_nodup⟩
  · obtain ⟨r, hr⟩ := inv.default_room
    refine ⟨r, ?_⟩
    rw [hmGet_cons, if_neg]
    · exact hr
    · intro hdd
      rw [hdd] at hd
      rw [hd] at hr
      cases hr
  · intro t' u' h'
    obtain ⟨room, hroom, hmem⟩ := inv.user_in_room t' u' h'
    refine ⟨room, ?_, hmem⟩
    rw [hmGet_cons, if_neg]
    · exact hroom
    · intro hdd
      rw [hdd] at hd
      rw [hd] at hroom
      cases hroom

/-! Equation lemmas: how each mutating ChatApp operation evaluates once its
guards are resolved. -/

theorem register_user_ok_eq {app : ChatApp} {t : Token} {n : Username}
    (h1 : hmGet t app.users = none) (h2 : hmGet n app.user_name_lookup = none) :
    app.register_user t n = .ok
      { users := (t, ⟨t, n, "default"⟩) :: app.users,
        rooms := hmModify "default" (fun r => { r with members := r.members ++ [t] })
          app.rooms,
        user_name_lookup := (n, t) :: app.user_name_lookup } := by
  simp [ChatApp.register_user, h1, h2]

theorem register_user_err_token_eq {app : ChatApp} {t : Token} {n : Username} {u : ChatUser}
    (h1 : hmGet t app.users = some u) :
    app.register_user t n = .error "A user is already registered for that token" := by
  simp [ChatApp.register_user, h1]

theorem register_user_err_name_eq {app : ChatApp} {t : Token} {n : Username}
    (t0 : Token)
    (h1 : hmGet t app.users = none) (h2 : hmGet n app.user_name_lookup = some t0) :
    app.register_user t n = .error "A user with that name is already registered" := by
  simp [ChatApp.register_user, h1, h2]

theorem move_rooms_create_eq {app : ChatApp} {t : Token} {d : Roomname} {u : ChatUser}
    (hd : hmGet d app.rooms = none) (hu : hmGet t app.users = some u) :
    app.move_rooms t d = some
      { users := hmModify t (fun x => { x with location := d }) app.users,
        rooms := hmModify d (fun r => { r with members := r.members ++ [t] })
          ((d, ChatRoom.new d) :: app.rooms),
        user_name_lookup := app.user_name_lookup } := by
  simp only [ChatApp.move_rooms, hd, if_true, hu]

theorem move_rooms_existing_eq {app : ChatApp} {t : Token} {d : Roomname}
    {u : ChatUser} {r : ChatRoom}
    (hd : hmGet d app.rooms = some r) (hu : hmGet t app.users = some u) :
    app.move_rooms t d = some
      { users := hmModify t (fun x => { x with location := d }) app.users,
        rooms := hmModify d (fun x => { x with members := x.members ++ [t] })
          app.rooms,
        user_name_lookup := app.user_name_lookup } := by
  simp only [ChatApp.move_rooms, hd, hu, reduceCtorEq, if_false]

theorem move_rooms_unregistered_eq {app : ChatApp} {t : Token} {d : Roomname}
    (hu : hmGet t app.users = none) : app.move_rooms t d = none := by
  by_cases hd : hmGet d app.rooms = none <;>
    simp only [ChatApp.move_rooms, hd, if_true, if_false, reduceCtorEq, hu]

theorem remove_user_some_eq {app : ChatApp} {t : Token} {u : ChatUser}
    (hu : hmGet t app.users = some u) :
    app.remove_user t =
      { users := hmRemove t app.users,
        rooms := hmModify u.location
          (fun r => { r with members := r.members.filter (fun x => x != t) })
          app.rooms,
        user_name_lookup := hmRemove u.user_name app.user_name_lookup } := by
  unfold ChatApp.remove_user
  rw [hu]

theorem remove_user_none_eq {app : ChatApp} {t : Token}
    (hu : hmGet t app.users = none) : app.remove_user t = app := by
  unfold ChatApp.remove_user
  rw [hu]

theorem appInv_move_apply {app1 : ChatApp} {t : Token} {d : Roomname} {u : ChatUser}
    (inv : AppInv app1) (hd : ∃ r1, hmGet d app1.rooms = some r1)
    (hu : hmGet t app1.users = some u) :
    AppInv { users := hmModify t (fun x => { x with location := d }) app1.users,
             rooms := hmModify d (fun r => { r with members := r.members ++ [t] })
               app1.rooms,
             user_name_lookup := app1.user_name_lookup } := by
  obtain ⟨r1, hr1⟩ := hd
  refine ⟨?_, ?_, ?_, ?_, ?_, ?_, ?_⟩ <;> dsimp only
  · rw [hmModify_keys]; exact inv.users_nodup
  · rw [hmModify_keys]; exact inv.rooms_nodup
  · exact inv.lookup_nodup
  · obtain ⟨r, hr⟩ := inv.default_room
    rw [hmGet_hmModify]
    by_cases hdd : d = "default"
    · rw [if_pos hdd, hr]
      exact ⟨{ r with members := r.members ++ [t] }, rfl⟩
    · rw [if_neg hdd]
      exact ⟨r, hr⟩
  · intro t' u' h'
    rw [hmGet_hmModify] at h'
    by_cases htt : t = t'
    · subst htt
      rw [if_pos rfl, hu] at h'
      injection h' with h'
      subst h'
      exact inv.user_name_idx t u hu
    · rw [if_neg htt] at h'
      exact inv.user_name_idx t' u' h'
  · intro t' u' h'
    rw [hmGet_hmModify] at h'
    by_cases htt : t = t'
    · subst htt
      rw [if_pos rfl, hu] at h'
      injection h' with h'
      subst h'
      refine ⟨{ r1 with members := r1.members ++ [t] }, ?_, by simp⟩
      dsimp only
      rw [hmGet_hmModify, if_pos rfl, hr1]
      rfl
    · rw [if_neg htt] at h'
      obtain ⟨room, hroom, hmem⟩ := inv.user_in_room t' u' h'
      rw [hmGet_hmModify]
      by_cases hl : d = u'.location
      · rw [if_pos hl, hroom]
        exact ⟨{ room with members := room.members ++ [t] }, rfl,
          List.mem_append_left _ hmem⟩
      · rw [if_neg hl]
        exact ⟨room, hroom, hmem⟩
  · intro n' t0 h'
    obtain ⟨u', hu', hname⟩ := inv.idx_user n' t0 h'
    rw [hmGet_hmModify]
    by_cases htt : t = t0
    · subst htt
      rw [if_pos rfl, hu']
      exact ⟨{ u' with location := d }, rfl, hname⟩
    · rw [if_neg htt]
      exact ⟨u', hu', hname⟩

theorem appInv_move {app app' : ChatApp} {t : Token} {d : Roomname}
    (inv : AppInv app) (h : app.move_rooms t d = some app') : AppInv app' := by
  cases hu : hmGet t app.users with
  | none => rw [move_rooms_unregistered_eq hu] at h; cases h
  | some u =>
    cases hd : hmGet d app.rooms with
    | none =>
      rw [move_rooms_create_eq hd hu] at h
      injection h with h
      subst h
      have inv1 := appInv_create_room inv hd
      exact appInv_move_apply inv1 ⟨ChatRoom.new d, by rw [hmGet_cons, if_pos rfl]⟩ hu
    | some r1 =>
      rw [move_rooms_existing_eq hd hu] at h
      injection h with h
      subst h
      exact appInv_move_apply inv ⟨r1, hd⟩ hu

theorem appInv_remove {app : ChatApp} (t : Token) (inv : AppInv app) :
    AppInv (app.remove_user t) := by
  cases hu : hmGet t app.users with
  | none => rw [remove_user_none_eq hu]; exact inv
  | some u =>
    rw [remove_user_some_eq hu]
    refine ⟨?_, ?_, ?_, ?_, ?_, ?_, ?_⟩ <;> dsimp only
    · exact (hmRemove_keys_sublist t app.users).nodup inv.users_nodup
    · rw [hmModify_keys]; exact inv.rooms_nodup
    · exact (hmRemove_keys_sublist u.user_name app.user_name_lookup).nodup
        inv.lookup_nodup
    · obtain ⟨r, hr⟩ := inv.default_room
      rw [hmGet_hmModify]
      by_cases hl : u.location = "default"
      · rw [if_pos hl, hr]
        exact ⟨{ r with members := r.members.filter (fun x => x != t) }, rfl⟩
      · rw [if_neg hl]
        exact ⟨r, hr⟩
    · intro t' u' h'
      rw [hmGet_hmRemove] at h'
      by_cases htt : t' = t
      · rw [if_pos htt] at h'; cases h'
      · rw [if_neg htt] at h'
        have hidx := inv.user_name_idx t' u' h'
        rw [hmGet_hmRemove]
        by_cases hne : u'.user_name = u.user_name
        · have hidx2 := inv.user_name_idx t u hu
          rw [hne] at hidx
          rw [hidx2] at hidx
          injection hidx with hidx
          exact absurd hidx.symm htt
        · rw [if_neg hne]
          exact hidx
    · intro t' u' h'
      rw [hmGet_hmRemove] at h'
      by_cases htt : t' = t
      · rw [if_pos htt] at h'; cases h'
      · rw [if_neg htt] at h'
        obtain ⟨room, hroom, hmem⟩ := inv.user_in_room t' u' h'
        rw [hmGet_hmModify]
        by_cases hl : u.location = u'.location
        · rw [if_pos hl, hroom]
          refine ⟨{ room with members := room.members.filter (fun x => x != t) },
            rfl, ?_⟩
          exact List.mem_filter.mpr ⟨hmem, by simp [htt]⟩
        · rw [if_neg hl]
          exact ⟨room, hroom, hmem⟩
    · intro n' t0 h'
      rw [hmGet_hmRemove] at h'
      by_cases hnn : n' = u.user_name
      · rw [if_pos hnn] at h'; cases h'
      · rw [if_neg hnn] at h'
        obtain ⟨u', hu', hname⟩ := inv.idx_user n' t0 h'
        refine ⟨u', ?_, hname⟩
        rw [hmGet_hmRemove]
        by_cases htt : t0 = t
        · rw [htt] at hu'
          rw [hu] at hu'
          injection hu' with hu'
          rw [← hu'] at hname
          exact absurd hname.symm hnn
        · rw [if_neg htt]
          exact hu'

/-- Every reachable ChatApp state satisfies the invariant. -/
theorem appInv_reachable {app : ChatApp} (h : Reachable app) : AppInv app := by
  induction h with
  | init => exact appInv_new
  | register_ok _ hreg ih => exact appInv_register ih hreg
  | move _ hmove ih => exact appInv_move ih hmove
  | remove t _ ih => exact appInv_remove t ih

/-- appAlice is reachable: one successful registration from the initial state. -/
theorem reachAlice : Reachable appAlice :=
  @Reachable.register_ok ChatApp.new appAlice 2 "alice" Reachable.init rfl

theorem findIdx?_isSome_of_mem {l : List Nat} {a : Nat} (h : a ∈ l) :
    (l.findIdx? (fun b => b = a)).isSome := by
  induction l with
  | nil => cases h
  | cons x l ih =>
    rw [List.findIdx?_cons]
    by_cases hx : x = a
    · simp [hx]
    · rcases List.mem_cons.mp h with h1 | h1
      · exact absurd h1.symm hx
      · simp only [hx, decide_eq_true_eq, if_neg]
        simp [Option.isSome_map, ih h1]

/-- How ChatConnection.read evaluates on a nonempty chunk when the extended
buffer holds a newline and is valid UTF-8: the whole buffer is returned as the
message and the retained buffer is empty. -/
theorem read_message_eq {c : ChatConnection} {b : Nat} {bs : List Nat}
    (hmem : (10 : Nat) ∈ c.read_buf ++ b :: bs)
    (hvalid : validUtf8 (c.read_buf ++ b :: bs) = true) :
    c.read (.read (b :: bs)) =
      ({ c with failed_read_attempts := 0, read_buf := [] },
       .message (c.read_buf ++ b :: bs)) := by
  have hsome := findIdx?_isSome_of_mem hmem
  cases hpos : List.findIdx? (fun x => x = 10) (c.read_buf ++ b :: bs) with
  | none => rw [hpos] at hsome; cases hsome
  | some pos =>
    unfold ChatConnection.read
    dsimp only
    rw [show ({ c with failed_read_attempts := 0, read_buf := c.read_buf ++ b :: bs } :
        ChatConnection).is_ready_to_write = some (pos + 1) from by
      unfold ChatConnection.is_ready_to_write
      dsimp only
      rw [hpos]
      rfl]
    dsimp only
    rw [hvalid]
    rfl

/-! ### The claims -/

/-- C1 counterexample: in the reachable state where token 2 has registered the
name alice and is the only member of the default room, get_message_recipients
returns the list [2] — which contains the sender itself, rather than the
member list with the sender excluded (which would be the empty list) — and the
fan-out loop therefore enqueues the broadcast payload on the sender's own
connection. -/
theorem C1_counterexample :
    appAlice.get_username 2 = some "alice" ∧
    appAlice.get_message_recipients 2 = some [2] ∧
    appAlice.get_message_recipients 2 ≠ some [] ∧
    (hmGet 2 (ChatServer.fan_out connsAlice
        ((appAlice.get_message_recipients 2).getD []) [104, 105, 10])).map
      ChatConnection.send_queue = some [[104, 105, 10]] := by
  exact ⟨rfl, rfl, by decide, rfl⟩

/-- C1 (amended): for every reachable state and registered sender,
get_message_recipients returns the full member list of the sender's current
room — the sender included — so a broadcast from an authorized user is
enqueued on the sender's own connection as well. -/
theorem C1_get_message_recipients (app : ChatApp) (h : Reachable app)
    (t : Token) (u : ChatUser) (hu : hmGet t app.users = some u) :
    ∃ room, hmGet u.location app.rooms = some room ∧
      app.get_message_recipients t = some room.members ∧ t ∈ room.members := by
  obtain ⟨room, hroom, hmem⟩ := (appInv_reachable h).user_in_room t u hu
  refine ⟨room, hroom, ?_, hmem⟩
  simp only [ChatApp.get_message_recipients, hu, hroom]

theorem C1_witness :
    ∃ room, hmGet "default" appAlice.rooms = some room ∧
      appAlice.get_message_recipients 2 = some room.members ∧ 2 ∈ room.members :=
  C1_get_message_recipients appAlice reachAlice 2 ⟨2, "alice", "default"⟩ rfl

/-- C2 counterexample: token 2 is registered and located in default; moving it
to the room red succeeds, sets its location to red, but leaves 2 in default's
member list — the token is not removed from the room it was in before the
call, and afterwards it is a member of a room other than dest. -/
theorem C2_counterexample :
    appAlice.move_rooms 2 "red" = some appAliceRed ∧
    (hmGet 2 appAliceRed.users).map ChatUser.location = some "red" ∧
    (hmGet "default" appAliceRed.rooms).map ChatRoom.members = some [2] := by
  exact ⟨rfl, rfl, rfl⟩

/-- C2 (amended): for every registered token, move_rooms creates dest if
absent, sets the user's room to dest and appends the token to dest's member
list, but does not remove the token from the previous room's members: every
room other than dest keeps its member list unchanged (and the name index is
untouched). -/
theorem C2_move_rooms (app : ChatApp) (t : Token) (u : ChatUser) (dest : Roomname)
    (hu : hmGet t app.users = some u) :
    ∃ app', app.move_rooms t dest = some app' ∧
      hmGet t app'.users = some { u with location := dest } ∧
      (∃ room', hmGet dest app'.rooms = some room' ∧ t ∈ room'.members) ∧
      (∀ r, r ≠ dest → hmGet r app'.rooms = hmGet r app.rooms) ∧
      app'.user_name_lookup = app.user_name_lookup := by
  cases hd : hmGet dest app.rooms with
  | none =>
    refine ⟨_, move_rooms_create_eq hd hu, ?_, ?_, ?_, rfl⟩
    · dsimp only
      rw [hmGet_hmModify, if_pos rfl, hu]
      rfl
    · dsimp only
      rw [hmGet_hmModify, if_pos rfl, hmGet_cons, if_pos rfl]
      exact ⟨_, rfl, by simp⟩
    · intro r hr
      dsimp only
      rw [hmGet_hmModify, if_neg (fun hh => hr hh.symm), hmGet_cons,
        if_neg (fun hh => hr hh.symm)]
  | some r0 =>
    refine ⟨_, move_rooms_existing_eq hd hu, ?_, ?_, ?_, rfl⟩
    · dsimp only
      rw [hmGet_hmModify, if_pos rfl, hu]
      rfl
    · dsimp only
      rw [hmGet_hmModify, if_pos rfl, hd]
      exact ⟨_, rfl, by simp⟩
    · intro r hr
      dsimp only
      rw [hmGet_hmModify, if_neg (fun hh => hr hh.symm)]

theorem C2_witness :
    ∃ app', appAlice.move_rooms 2 "red" = some app' ∧
      hmGet 2 app'.users = some ⟨2, "alice", "red"⟩ ∧
      (∃ room', hmGet "red" app'.rooms = some room' ∧ 2 ∈ room'.members) ∧
      (∀ r, r ≠ "red" → hmGet r app'.rooms = hmGet r appAlice.rooms) ∧
      app'.user_name_lookup = appAlice.user_name_lookup :=
  C2_move_rooms appAlice 2 ⟨2, "alice", "default"⟩ "red" rfl

/-- C3: remove_user with a registered token removes the token from its room's
member list, drops the name from the name index and removes the User while
keeping the room table's keys unchanged (empty rooms survive); with an
unregistered token it is a no-op; and afterwards a token not currently
registered can successfully re-register the freed name. -/
theorem C3_remove_user (app : ChatApp) (t t'' : Token) :
    (∀ u, hmGet t app.users = some u →
      (app.remove_user t).users = hmRemove t app.users ∧
      (app.remove_user t).user_name_lookup =
        hmRemove u.user_name app.user_name_lookup ∧
      (app.remove_user t).rooms = hmModify u.location
        (fun r => { r with members := r.members.filter (fun x => x != t) })
        app.rooms ∧
      (app.remove_user t).rooms.map Prod.fst = app.rooms.map Prod.fst) ∧
    (hmGet t app.users = none → app.remove_user t = app) ∧
    (∀ u, hmGet t app.users = some u →
      hmGet t'' (app.remove_user t).users = none →
      ∃ app', (app.remove_user t).register_user t'' u.user_name = .ok app') := by
  refine ⟨?_, remove_user_none_eq, ?_⟩
  · intro u hu
    rw [remove_user_some_eq hu]
    refine ⟨rfl, rfl, rfl, ?_⟩
    dsimp only
    exact hmModify_keys _ _ _
  · intro u hu ht''
    refine ⟨_, register_user_ok_eq ht'' ?_⟩
    rw [remove_user_some_eq hu]
    dsimp only
    rw [hmGet_hmRemove, if_pos rfl]

theorem C3_witness :
    (appAlice.remove_user 2).user_name_lookup =
      hmRemove "alice" appAlice.user_name_lookup ∧
    ∃ app', (appAlice.remove_user 2).register_user 5 "alice" = .ok app' :=
  ⟨((C3_remove_user appAlice 2 5).1 ⟨2, "alice", "default"⟩ rfl).2.1,
   (C3_remove_user appAlice 2 5).2.2 ⟨2, "alice", "default"⟩ rfl rfl⟩

/-- C4 counterexample: with an empty read buffer, a single arriving chunk
holding the two complete lines a-newline and b-newline makes read return the
entire chunk as one message and leaves the buffer empty, instead of returning
the bytes up to and including the first newline with the rest retained in the
buffer for the next call. -/
theorem C4_counterexample :
    (conn2.read (.read [97, 10, 98, 10])).2 = .message [97, 10, 98, 10] ∧
    (conn2.read (.read [97, 10, 98, 10])).1.read_buf = [] ∧
    ¬((conn2.read (.read [97, 10, 98, 10])).2 = .message [97, 10] ∧
      (conn2.read (.read [97, 10, 98, 10])).1.read_buf = [98, 10]) := by
  decide

/-- C4 (amended): when the read buffer extended by a nonempty chunk contains a
newline byte and is valid UTF-8, read returns the ENTIRE buffered byte
sequence as the message — bytes after the first newline included — and leaves
the read buffer empty; consequently two complete lines fed as two separate
chunks yield the messages A then B, while a split that merges the end of A
with part of B does not (see the counterexample). -/
theorem C4_read_framing :
    (∀ (c : ChatConnection) (b : Nat) (bs : List Nat),
      (10 : Nat) ∈ c.read_buf ++ b :: bs →
      validUtf8 (c.read_buf ++ b :: bs) = true →
      c.read (.read (b :: bs)) =
        ({ c with failed_read_attempts := 0, read_buf := [] },
         .message (c.read_buf ++ b :: bs))) ∧
    (∀ (c : ChatConnection) (a : Nat) (as : List Nat) (b : Nat) (bs : List Nat),
      c.read_buf = [] →
      (10 : Nat) ∈ a :: as → validUtf8 (a :: as) = true →
      (10 : Nat) ∈ b :: bs → validUtf8 (b :: bs) = true →
      (c.read (.read (a :: as))).2 = .message (a :: as) ∧
      ((c.read (.read (a :: as))).1.read (.read (b :: bs))).2 =
        .message (b :: bs)) := by
  refine ⟨fun c b bs hmem hvalid => read_message_eq hmem hvalid, ?_⟩
  intro c a as b bs hbuf hmemA hvalA hmemB hvalB
  have h1 := @read_message_eq c a as
    (by rw [hbuf]; simpa using hmemA) (by rw [hbuf]; simpa using hvalA)
  constructor
  · rw [h1, hbuf]
    rfl
  · rw [h1]
    dsimp only
    have h2 := @read_message_eq
      { c with failed_read_attempts := 0, read_buf := [] }
      b bs (by simpa using hmemB) (by simpa using hvalB)
    rw [h2]
    rfl

theorem C4_witness :
    (conn2.read (.read [104, 10])).2 = .message [104, 10] ∧
    ((conn2.read (.read [104, 10])).1.read (.read [105, 10])).2 =
      .message [105, 10] :=
  C4_read_framing.2 conn2 104 [10] 105 [10] rfl (by decide) (by decide)
    (by decide) (by decide)

/-- C5: after any sequence of ChatApp operations the name index is injective,
and for every registered user the name index maps its name to its token and
its token is a member of its current room's member list. -/
theorem C5_invariants (app : ChatApp) (h : Reachable app) :
    (∀ n1 n2 t, hmGet n1 app.user_name_lookup = some t →
      hmGet n2 app.user_name_lookup = some t → n1 = n2) ∧
    (∀ t u, hmGet t app.users = some u →
      hmGet u.user_name app.user_name_lookup = some t ∧
      ∃ room, hmGet u.location app.rooms = some room ∧ t ∈ room.members) := by
  have inv := appInv_reachable h
  refine ⟨?_, ?_⟩
  · intro n1 n2 t h1 h2
    obtain ⟨u1, hu1, hname1⟩ := inv.idx_user n1 t h1
    obtain ⟨u2, hu2, hname2⟩ := inv.idx_user n2 t h2
    rw [hu1] at hu2
    injection hu2 with hu2
    rw [← hname1, ← hname2, hu2]
  · intro t u hu
    exact ⟨inv.user_name_idx t u hu, inv.user_in_room t u hu⟩

theorem C5_witness :
    hmGet "alice" appAlice.user_name_lookup = some 2 ∧
    ∃ room, hmGet "default" appAlice.rooms = some room ∧ 2 ∈ room.members :=
  (C5_invariants appAlice reachAlice).2 2 ⟨2, "alice", "default"⟩ rfl

/-- C6: on an Open connection with one queued buffer, each would-block write
re-queues the buffer at the head and increments the failed-write counter, and
a successful write resets the counter — but after exactly three consecutive
would-block writes the connection is still Open with counter 3: the source
closes only when the counter exceeds 3, i.e. on the fourth consecutive
would-block (contradicting connection.rs's own field comment "currently abort
after 3"). -/
theorem C6_three_would_blocks :
    (conn2Queued.write .wouldBlock).1.send_queue = [[104]] ∧
    (conn2Queued.write .wouldBlock).1.failed_write_attempts = 1 ∧
    (((conn2Queued.write .wouldBlock).1.write .wouldBlock).1.write
      .wouldBlock).1.state = ChatConnectionState.Open ∧
    (((conn2Queued.write .wouldBlock).1.write .wouldBlock).1.write
      .wouldBlock).1.failed_write_attempts = 3 ∧
    ((((conn2Queued.write .wouldBlock).1.write .wouldBlock).1.write
      .wouldBlock).1.write .wouldBlock).1.state = ChatConnectionState.Closed ∧
    (conn2Queued.write (.wrote 1)).1.failed_write_attempts = 0 := by
  decide

/-- C7: register_user fails with the token-taken error when the token is
registered, fails with the name-taken error when the name is in the index
(in particular after a successful registration of the same name by a
different token), leaves the state untouched on the error paths (the checks
precede every mutation, so the embedded error paths return no new state), and
on success creates the user in the default room, pushes the token onto
default's members and updates the name index. -/
theorem C7_register_user (app : ChatApp) (t t' : Token) (n : Username) :
    (∀ u, hmGet t app.users = some u →
      app.register_user t n = .error "A user is already registered for that token") ∧
    (hmGet t app.users = none → ∀ t0, hmGet n app.user_name_lookup = some t0 →
      app.register_user t n = .error "A user with that name is already registered") ∧
    (hmGet t app.users = none → hmGet n app.user_name_lookup = none →
      app.register_user t n = .ok
        { users := (t, ⟨t, n, "default"⟩) :: app.users,
          rooms := hmModify "default"
            (fun r => { r with members := r.members ++ [t] }) app.rooms,
          user_name_lookup := (n, t) :: app.user_name_lookup }) ∧
    (hmGet t app.users = none → t ≠ t' → ∀ app',
      app.register_user t' n = .ok app' →
      app'.register_user t n =
        .error "A user with that name is already registered") := by
  refine ⟨?_, ?_, ?_, ?_⟩
  · intro u hu
    exact register_user_err_token_eq hu
  · intro h1 t0 h2
    exact register_user_err_name_eq t0 h1 h2
  · intro h1 h2
    exact register_user_ok_eq h1 h2
  · intro h1 htt app' hok
    cases hu' : hmGet t' app.users with
    | some u1 => rw [register_user_err_token_eq hu'] at hok; cases hok
    | none =>
      cases hn : hmGet n app.user_name_lookup with
      | some t0 => rw [register_user_err_name_eq t0 hu' hn] at hok; cases hok
      | none =>
        rw [register_user_ok_eq hu' hn] at hok
        injection hok with hok
        subst hok
        refine register_user_err_name_eq t' ?_ ?_
        · show hmGet t ((t', ⟨t', n, "default"⟩) :: app.users) = none
          rw [hmGet_cons, if_neg (fun hh => htt hh.symm)]
          exact h1
        · show hmGet n ((n, t') :: app.user_name_lookup) = some t'
          rw [hmGet_cons, if_pos rfl]

theorem C7_witness :
    ChatApp.new.register_user 2 "alice" = .ok appAlice ∧
    appAlice.register_user 3 "alice" =
      .error "A user with that name is already registered" :=
  ⟨rfl, (C7_register_user ChatApp.new 3 2 "alice").2.2.2 rfl (by decide)
    appAlice rfl⟩

/-- C8: token 2 is registered and already located in default, yet
move_rooms 2 default is not idempotent: app.rs pushes the token onto the
member list unconditionally, so default's members go from [2] to [2, 2] and
the final state differs from the state before the call (room.rs declares
members as a HashSet, under which the re-insert would be a no-op; app.rs's
Vec push contradicts that declaration). -/
theorem C8_move_rooms_duplicate :
    (hmGet 2 appAlice.users).map ChatUser.location = some "default" ∧
    appAlice.move_rooms 2 "default" = some appAliceMovedDefault ∧
    (hmGet "default" appAliceMovedDefault.rooms).map ChatRoom.members =
      some [2, 2] ∧
    appAliceMovedDefault ≠ appAlice := by
  decide

/-- C9: the do-nothing branch for empty or whitespace-only input is
unreachable — Rust's split always yields a first piece, empty for such input —
so a bare newline from an unauthorized connection calls register_user with the
empty string as the name: on the fresh state this succeeds, registers a user
named the empty string in the default room, and enqueues the
successfully-authorized reply to the sender, instead of doing nothing. -/
theorem C9_newline_registers_empty_name :
    (ChatServer.handle_message_from_unauthorized_user ChatApp.new 2 "\n").2 =
      some "Server: you have been successfully authorized\n" ∧
    hmGet 2 (ChatServer.handle_message_from_unauthorized_user
      ChatApp.new 2 "\n").1.users = some ⟨2, "", "default"⟩ ∧
    hmGet "" (ChatServer.handle_message_from_unauthorized_user
      ChatApp.new 2 "\n").1.user_name_lookup = some 2 := by
  exact ⟨rfl, rfl, rfl⟩

/-- C10: write on a connection whose send queue is empty returns the
could-not-pop error and leaves the queue, the lifecycle state and the
failed-write counter unchanged, clearing only the writable-interest bit. -/
theorem C10_write_empty_queue (c : ChatConnection) (k : TryWriteResult)
    (h : c.send_queue = []) :
    c.write k = ({ c with interest_writable := false },
      Except.error "Could not pop send queue") := by
  obtain ⟨tok, ir, iw, rb, sq, st, fr, fw⟩ := c
  dsimp only at h
  subst h
  rfl

theorem C10_witness :
    conn2.write .wouldBlock = ({ conn2 with interest_writable := false },
      Except.error "Could not pop send queue") :=
  C10_write_empty_queue conn2 .wouldBlock rfl

end RustChat
